import Mathlib

/-!
# oci-reg-docker: the registry proxy over a container engine's image store

A shallow embedding of `pkg/proxy` (registry.go, index.go, manifest.go,
endpoints.go) and of the prefix handling of `mainInner` (main.go), and the
properties of the blob index, manifest cache, manifest extraction, endpoint
handlers and start-up configuration.

Modelling conventions
* Go strings are character lists (`Str`); the string functions the code uses
  (`strings.HasPrefix`, `TrimPrefix`, `Count` and `ReplaceAll` with one-character
  arguments) are defined on them.
* Go maps are association lists with at most one binding per key; `mapGet` is the
  comma-ok lookup and `mapSet` the assignment `m[k] = v`.  Where the code ranges
  over a map, the order is a parameter constrained to be a permutation.
* The engine client (`r.Docker`), the JSON decoder and the tar reader are the
  boundary: their results are parameters of the model.
* Locks are not modelled: every handler is one atomic step on the registry state.
-/

namespace OciRegDocker

/-! ## Strings -/

/-- Go string. -/
abbrev Str := List Char

/-- Byte slice. -/
abbrev Bytes := List Nat

/-- Go `strings.HasPrefix(s, p)`: `len(s) >= len(p) && s[:len(p)] == p`. -/
def HasPrefix (s p : Str) : Bool :=
  decide (p.length ≤ s.length) && (s.take p.length == p)

/-- Go `strings.TrimPrefix(s, p)`. -/
def TrimPrefix (s p : Str) : Str :=
  if HasPrefix s p then s.drop p.length else s

/-- Go `strings.Count(s, sep)` for a one-character separator. -/
def Count (s : Str) (sep : Char) : Nat :=
  s.count sep

/-- Go `strings.ReplaceAll(s, old, new)` for one-character `old` and `new`. -/
def ReplaceAll (s : Str) (old new : Char) : Str :=
  s.map (fun c => if c = old then new else c)

/-! ## Maps -/

/-- Comma-ok lookup `v, ok := m[k]`. -/
def mapGet {V : Type} : List (Str × V) → Str → Option V
  | [], _ => none
  | (k', v) :: rest, k => if k' = k then some v else mapGet rest k

/-- Assignment `m[k] = v`. -/
def mapSet {V : Type} : List (Str × V) → Str → V → List (Str × V)
  | [], k, v => [(k, v)]
  | (k', v') :: rest, k, v =>
    if k' = k then (k, v) :: rest else (k', v') :: mapSet rest k v

/-! ## Data model -/

/-- The fields of `image.InspectResponse` the proxy reads (`Layers` is `RootFS.Layers`). -/
structure InspectResponse where
  ID : Str
  RepoTags : List Str
  Layers : List Str
  deriving DecidableEq, Repr

/-- The fields of `image.Summary` the proxy reads. -/
structure Summary where
  ID : Str
  RepoTags : List Str
  deriving DecidableEq, Repr

/-- Manifest descriptor of the save archive's index (`ociimage.Descriptor`). -/
structure Descriptor where
  Digest : Str
  MediaType : Str
  deriving DecidableEq, Repr

/-- The fields of `ociimage.Manifest` the proxy reads (`ConfigDigest` is `Config.Digest`). -/
structure Manifest where
  MediaType : Str
  ConfigDigest : Str
  deriving DecidableEq, Repr

/-- Extracted manifest: the exact bytes and their parsed form. -/
structure cachedManifest where
  JSON : Bytes
  Manifest : Manifest
  deriving DecidableEq, Repr

/-- One entry of a save archive as the tar reader yields it: the header's name and
size, and what reading the entry's content to its end gives (the bytes, or a read
error).  When the read fails, `readSoFar` holds the bytes the reader delivered before
the error. -/
structure TarEntry where
  Name : Str
  Size : Nat
  content : Except Str Bytes
  readSoFar : Bytes := []

/-- A save archive as the tar reader walks it: the entries `Next` yields, then either
`io.EOF` (`failure = none`) or another error. -/
structure TarStream where
  entries : List TarEntry
  failure : Option Str

/-- The engine client.  `ImageSave k id` is the answer to a save request for image `id`
when `k` save requests were made before it. -/
structure Docker where
  ImageSave : Nat → Str → Except Str TarStream
  ImageInspect : Str → Except Str InspectResponse
  ImageList : Str → Except Str (List Summary)

/-- The JSON decoder.  `decodeIndex cur b` decodes `b` into an index variable that
currently holds the descriptors `cur`. -/
structure Json where
  decodeLayout : Bytes → Except Str Unit
  decodeIndex : List Descriptor → Bytes → Except Str (List Descriptor)
  unmarshalManifest : Bytes → Except Str Manifest

/-- The blob index: digest to (image ID to image). -/
abbrev BlobIndex := List (Str × List (Str × InspectResponse))

/-- The registry: `Prefixes` is `none` for a nil map; `saveCalls` counts the
`ImageSave` requests made so far. -/
structure Registry where
  Prefixes : Option (List Str)
  blobIndex : BlobIndex
  manifestCache : List (Str × cachedManifest)
  saveCalls : Nat

/-- Constructor `New(cfg)`: empty index and cache. -/
def New (prefixes : Option (List Str)) : Registry :=
  { Prefixes := prefixes, blobIndex := [], manifestCache := [], saveCalls := 0 }

/-! ## registry.go -/

/-- The loop of `HasAllowedPrefix` over the configured set. -/
def anyPrefixOf (name : Str) : List Str → Bool
  | [] => false
  | p :: rest => if HasPrefix name p then true else anyPrefixOf name rest

/-- Method `Registry.HasAllowedPrefix`. -/
def HasAllowedPrefix (r : Registry) (name : Str) : Bool :=
  match r.Prefixes with
  | none => true
  | some ps => anyPrefixOf name ps

/-! ## index.go -/

/-- Method `Registry.addBlobToIndex`. -/
def addBlobToIndex (idx : BlobIndex) (blobID : Str) (img : InspectResponse) : BlobIndex :=
  match mapGet idx blobID with
  | none => mapSet idx blobID [(img.ID, img)]
  | some imgs => mapSet idx blobID (mapSet imgs img.ID img)

/-- Method `Registry.addImageToIndex`. -/
def addImageToIndex (idx : BlobIndex) (img : InspectResponse) : BlobIndex :=
  addBlobToIndex (img.Layers.foldl (fun acc blobID => addBlobToIndex acc blobID img) idx)
    img.ID img

/-! ## manifest.go -/

/-- The constant `smallBlobCap` of `getManifest`, as the source computes it. -/
def smallBlobCap : Nat := 512 * 1024 * 1024

/-- Constant `ociimage.ImageLayoutFile`. -/
def ImageLayoutFile : Str := "oci-layout".toList

/-- Constant `ociimage.ImageIndexFile`. -/
def ImageIndexFile : Str := "index.json".toList

/-- Constant `ociimage.ImageBlobsDir`. -/
def ImageBlobsDir : Str := "blobs".toList

/-- What the archive pass of `getManifest` collects: the decoded index descriptors
(`index.Manifests`) and the buffered blobs. -/
structure ScanState where
  index : List Descriptor
  smallBlobs : List (Str × Bytes)

/-- One iteration of the archive pass of `getManifest`, for the header `h`. -/
def scanEntry (j : Json) (st : ScanState) (h : TarEntry) : Except Str ScanState :=
  if h.Name = ImageLayoutFile then
    match h.content.bind j.decodeLayout with
    | .error e => .error ("daemon save tarball contained invalid layout: ".toList ++ e)
    | .ok _ => .ok st
  else if h.Name = ImageIndexFile then
    match h.content.bind (j.decodeIndex st.index) with
    | .error e => .error ("daemon save tarball contained invalid index: ".toList ++ e)
    | .ok ds => .ok { st with index := ds }
  else if h.Size > smallBlobCap then
    .ok st
  else if !HasPrefix h.Name (ImageBlobsDir ++ "/".toList) then
    .ok st
  else
    let digest := ReplaceAll (TrimPrefix h.Name (ImageBlobsDir ++ "/".toList)) '/' ':'
    match h.content with
    | .error e => .error ("failed reading potential manifest blob: ".toList ++ e)
    | .ok b => .ok { st with smallBlobs := mapSet st.smallBlobs digest b }

/-- The archive pass over the entries `Next` yields. -/
def scanEntries (j : Json) : List TarEntry → ScanState → Except Str ScanState
  | [], st => .ok st
  | h :: rest, st =>
    match scanEntry j st h with
    | .error e => .error e
    | .ok st1 => scanEntries j rest st1

/-- The whole archive pass of `getManifest`: the entries, then `io.EOF` or the
error `Next` ends with. -/
def scanArchive (j : Json) (t : TarStream) : Except Str ScanState :=
  match scanEntries j t.entries { index := [], smallBlobs := [] } with
  | .error e => .error e
  | .ok st =>
    match t.failure with
    | none => .ok st
    | some e => .error ("reading upstream tarball: ".toList ++ e)

/-- The descriptor loop of `getManifest`. -/
def matchManifest (j : Json) (imgID : Str) (smallBlobs : List (Str × Bytes)) :
    List Descriptor → Except Str cachedManifest
  | [] => .error ("upstream tarball did not contain expected manifest with ID ".toList ++ imgID)
  | descriptor :: rest =>
    match mapGet smallBlobs descriptor.Digest with
    | none =>
      .error ("daemon save tarball did not contain manifest blob ".toList ++ descriptor.Digest
        ++ " or it was very big".toList)
    | some manifestJSON =>
      match j.unmarshalManifest manifestJSON with
      | .error e =>
        .error ("daemon save tarball contained invalid manifest blob ".toList
          ++ descriptor.Digest ++ ": ".toList ++ e)
      | .ok m =>
        if m.ConfigDigest = imgID then .ok { JSON := manifestJSON, Manifest := m }
        else matchManifest j imgID smallBlobs rest

/-- The part of `getManifest` after the archive pass: the emptiness check on the index
and the descriptor loop. -/
def getManifestFromScan (j : Json) (imgID : Str) (index : List Descriptor)
    (smallBlobs : List (Str × Bytes)) : Except Str cachedManifest :=
  if index.length = 0 then .error "upstream tarball did not contain any manifests".toList
  else matchManifest j imgID smallBlobs index

/-- Method `Registry.getManifest`, as the request numbered `calls` to the engine's save. -/
def getManifest (d : Docker) (j : Json) (calls : Nat) (img : InspectResponse) :
    Except Str cachedManifest :=
  match d.ImageSave calls img.ID with
  | .error e => .error ("requesting upstream tarball: ".toList ++ e)
  | .ok t =>
    match scanArchive j t with
    | .error e => .error e
    | .ok st => getManifestFromScan j img.ID st.index st.smallBlobs

/-- Method `Registry.getAndCacheManifest`: the result and the registry afterwards. -/
def getAndCacheManifest (d : Docker) (j : Json) (r : Registry) (img : InspectResponse) :
    Except Str cachedManifest × Registry :=
  match mapGet r.manifestCache img.ID with
  | some manifest => (.ok manifest, r)
  | none =>
    match getManifest d j r.saveCalls img with
    | .error e => (.error e, { r with saveCalls := r.saveCalls + 1 })
    | .ok manifest =>
      (.ok manifest,
        { r with
          saveCalls := r.saveCalls + 1
          manifestCache := mapSet r.manifestCache img.ID manifest
          blobIndex := addImageToIndex r.blobIndex img })

/-! ## endpoints.go -/

/-- What a handler writes to the body. -/
inductive Chunk where
  | text (msg : Str)
  | raw (data : Bytes)
  | tagList (name : Str) (tags : List Str)
  deriving DecidableEq, Repr

/-- The `http.ResponseWriter`: the status line once written, the headers and the body. -/
structure ResponseWriter where
  status : Option Nat
  header : List (Str × Str)
  body : List Chunk
  deriving DecidableEq, Repr

/-- A writer nothing was written to. -/
def ResponseWriter.fresh : ResponseWriter :=
  { status := none, header := [], body := [] }

/-- Call `w.WriteHeader(code)`: the first status written stands. -/
def WriteHeader (w : ResponseWriter) (code : Nat) : ResponseWriter :=
  match w.status with
  | some _ => w
  | none => { w with status := some code }

/-- Call `w.Write(c)`: writes the status 200 first when none was written. -/
def Write (w : ResponseWriter) (c : Chunk) : ResponseWriter :=
  let w1 := WriteHeader w 200
  { w1 with body := w1.body ++ [c] }

/-- Call `w.Header().Add(k, v)`: no effect once the status line is out. -/
def HeaderAdd (w : ResponseWriter) (k v : Str) : ResponseWriter :=
  match w.status with
  | some _ => w
  | none => { w with header := w.header ++ [(k, v)] }

/-- The status the client receives: 200 when the handler wrote none. -/
def ResponseWriter.code (w : ResponseWriter) : Nat :=
  w.status.getD 200

def StatusOK : Nat := 200
def StatusBadRequest : Nat := 400
def StatusForbidden : Nat := 403
def StatusNotFound : Nat := 404
def StatusInternalServerError : Nat := 500

/-- How a handler ends: it returns its error value, or it panics. -/
inductive Outcome where
  | returned (err : Option Str)
  | panicked
  deriving DecidableEq, Repr

/-- A handler run: the response, how the handler ended, the registry afterwards. -/
structure Result where
  w : ResponseWriter
  outcome : Outcome
  reg : Registry

/-- Lookup `pathVars[k]`: the empty string for an absent key. -/
def pathVar (pathVars : List (Str × Str)) (k : Str) : Str :=
  (mapGet pathVars k).getD []

/-- The tag normalisation and comparison of `end_2`: the `switch` on the number of
slashes, then `strings.HasPrefix(tag, name+":")`. -/
def tagMatches (name tag : Str) : Bool :=
  let tag1 :=
    match Count tag '/' with
    | 0 => "docker.io/library/".toList ++ tag
    | 1 => "docker.io/".toList ++ tag
    | _ => tag
  HasPrefix tag1 (name ++ ":".toList)

/-- The inner loop of `end_2` over `img.RepoTags`: whether it reaches `break imgs`. -/
def anyTagMatches (name : Str) : List Str → Bool
  | [] => false
  | tag :: rest => if tagMatches name tag then true else anyTagMatches name rest

/-- The loop `imgs:` of `end_2` over the candidates in range order: the value of
`imgID` after it. -/
def selectImage (name : Str) : List (Str × InspectResponse) → Str
  | [] => []
  | (id, img) :: rest => if anyTagMatches name img.RepoTags then id else selectImage name rest

/-- The blob resolution of `end_2` (index lookup, candidate loop, empty check): the
selected image ID, or the error returned with status 404.  `order` is the order in
which `range` visits the candidates. -/
def end_2_resolve (order : List (Str × InspectResponse) → List (Str × InspectResponse))
    (r : Registry) (name digest : Str) : Except Str Str :=
  match mapGet r.blobIndex digest with
  | none => .error "digest not in blob index".toList
  | some imgs =>
    let imgID := selectImage name (order imgs)
    if imgID = [] then .error "digest was not indexed as belonging to this repo".toList
    else .ok imgID

/-- The writes of `io.Copy(w, imgTarR)` for the bytes `data` it read: none when there
are no bytes. -/
def copyBody (w : ResponseWriter) (data : Bytes) : ResponseWriter :=
  if data = [] then w else Write w (.raw data)

/-- The archive loop of `end_2`.  When `Next` fails with an error other than `io.EOF` the
header is nil and the loop dereferences it. -/
def end_2_stream (digest : Str) (failure : Option Str) (r : Registry) :
    List TarEntry → Result
  | [] =>
    match failure with
    | none =>
      let err := "saved image tarball did not contain expected blob".toList
      { w := Write (WriteHeader ResponseWriter.fresh StatusInternalServerError) (.text err)
        outcome := .returned (some err), reg := r }
    | some _ => { w := ResponseWriter.fresh, outcome := .panicked, reg := r }
  | h :: rest =>
    if h.Name ≠ "blobs/".toList ++ ReplaceAll digest ':' '/' then
      end_2_stream digest failure r rest
    else
      let w := HeaderAdd ResponseWriter.fresh "Content-Length".toList (Nat.repr h.Size).toList
      match h.content with
      | .error e =>
        { w := Write (WriteHeader (copyBody w h.readSoFar) StatusInternalServerError) (.text e)
          outcome := .returned (some e), reg := r }
      | .ok b => { w := copyBody w b, outcome := .returned none, reg := r }

/-- Handler `end_2`: blob by digest. -/
def end_2 (d : Docker) (order : List (Str × InspectResponse) → List (Str × InspectResponse))
    (r : Registry) (pathVars : List (Str × Str)) : Result :=
  let name := pathVar pathVars "name".toList
  let digest := pathVar pathVars "digest".toList
  if !HasAllowedPrefix r name then
    { w := WriteHeader ResponseWriter.fresh StatusNotFound
      outcome := .returned (some "does not have allowed prefix".toList), reg := r }
  else
    match end_2_resolve order r name digest with
    | .error e =>
      { w := WriteHeader ResponseWriter.fresh StatusNotFound
        outcome := .returned (some e), reg := r }
    | .ok imgID =>
      let r1 := { r with saveCalls := r.saveCalls + 1 }
      match d.ImageSave r.saveCalls imgID with
      | .error e =>
        { w := Write (WriteHeader ResponseWriter.fresh StatusInternalServerError) (.text e)
          outcome := .returned (some e), reg := r1 }
      | .ok imgTar => end_2_stream digest imgTar.failure r1 imgTar.entries

/-- The image reference `end_3` inspects: `name@reference` for a digest-shaped
reference, `name:reference` otherwise. -/
def end_3_imgID (name reference : Str) : Str :=
  if HasPrefix reference "sha256:".toList then name ++ "@".toList ++ reference
  else name ++ ":".toList ++ reference

/-- Handler `end_3`: manifest by reference. -/
def end_3 (d : Docker) (j : Json) (r : Registry) (pathVars : List (Str × Str)) : Result :=
  let name := pathVar pathVars "name".toList
  let reference := pathVar pathVars "reference".toList
  if !HasAllowedPrefix r name then
    { w := WriteHeader ResponseWriter.fresh StatusNotFound
      outcome := .returned (some "does not have allowed prefix".toList), reg := r }
  else
    let imgID := end_3_imgID name reference
    match d.ImageInspect imgID with
    | .error e =>
      { w := Write (WriteHeader ResponseWriter.fresh StatusInternalServerError) (.text e)
        outcome := .returned (some e), reg := r }
    | .ok img =>
      match getAndCacheManifest d j r img with
      | (.error e, r1) =>
        { w := Write (WriteHeader ResponseWriter.fresh StatusInternalServerError) (.text e)
          outcome := .returned (some e), reg := r1 }
      | (.ok manifest, r1) =>
        let w1 := HeaderAdd ResponseWriter.fresh "Content-Length".toList
          (Nat.repr manifest.JSON.length).toList
        let w2 := HeaderAdd w1 "Content-Type".toList manifest.Manifest.MediaType
        { w := Write w2 (.raw manifest.JSON), outcome := .returned none, reg := r1 }

/-- Handler `end_1`: the API base. -/
def end_1 (r : Registry) (_pathVars : List (Str × Str)) : Result :=
  { w := WriteHeader ResponseWriter.fresh StatusOK, outcome := .returned none, reg := r }

/-- Handler `end_4a_4b_11`: upload initiation. -/
def end_4a_4b_11 (r : Registry) (_pathVars : List (Str × Str)) : Result :=
  { w := WriteHeader ResponseWriter.fresh StatusForbidden, outcome := .returned none, reg := r }

/-- Handler `end_5`: upload chunk. -/
def end_5 (r : Registry) (_pathVars : List (Str × Str)) : Result :=
  { w := WriteHeader ResponseWriter.fresh StatusForbidden, outcome := .returned none, reg := r }

/-- Handler `end_6`: upload completion. -/
def end_6 (r : Registry) (_pathVars : List (Str × Str)) : Result :=
  { w := WriteHeader ResponseWriter.fresh StatusForbidden, outcome := .returned none, reg := r }

/-- Handler `end_7`: manifest put. -/
def end_7 (r : Registry) (_pathVars : List (Str × Str)) : Result :=
  { w := WriteHeader ResponseWriter.fresh StatusForbidden, outcome := .returned none, reg := r }

/-- The query parameter `n` of the tag list as the handler sees it: absent (empty),
or what `fmt.Sscanf(nStr, "%d", &n)` makes of it. -/
inductive QueryN where
  | absent
  | parsed (n : Int)
  | invalid (err : Str)
  deriving DecidableEq, Repr

/-- The accumulators of the tag loop: `tags.Tags` and the key set of `tagSet`. -/
structure TagAcc where
  Tags : List Str
  tagSet : List (Str × Unit)
  deriving DecidableEq, Repr

/-- The body of the inner loop of `end_8a_8b`, for one `repoTag`. -/
def tagStep (name : Str) (acc : TagAcc) (repoTag : Str) : TagAcc :=
  if !HasPrefix repoTag (name ++ ":".toList) then acc
  else
    let tag := TrimPrefix repoTag (name ++ ":".toList)
    match mapGet acc.tagSet tag with
    | some _ => acc
    | none => { Tags := acc.Tags ++ [tag], tagSet := mapSet acc.tagSet tag () }

/-- The outer loop of `end_8a_8b` over the image summaries, with the check
`n != 0 && len(tagSet) >= n` after each summary. -/
def tagLoop (name : Str) (n : Int) : List Summary → TagAcc → TagAcc
  | [], acc => acc
  | imgSum :: rest, acc =>
    let acc1 := imgSum.RepoTags.foldl (tagStep name) acc
    if n ≠ 0 ∧ (acc1.tagSet.length : Int) ≥ n then acc1 else tagLoop name n rest acc1

/-- The tags `end_8a_8b` encodes, for the summaries the engine listed and the value of `n`. -/
def listTags (name : Str) (n : Int) (imgSums : List Summary) : List Str :=
  (tagLoop name n imgSums { Tags := [], tagSet := [] }).Tags

/-- Handler `end_8a_8b`: tag list. -/
def end_8a_8b (d : Docker) (r : Registry) (pathVars : List (Str × Str)) (q : QueryN) : Result :=
  let name := pathVar pathVars "name".toList
  if !HasAllowedPrefix r name then
    { w := WriteHeader ResponseWriter.fresh StatusNotFound
      outcome := .returned (some "does not have allowed prefix".toList), reg := r }
  else
    let parsedN : Except Str Int :=
      match q with
      | .absent => .ok 0
      | .parsed n => .ok n
      | .invalid e => .error e
    match parsedN with
    | .error e =>
      { w := Write (WriteHeader ResponseWriter.fresh StatusBadRequest) (.text e)
        outcome := .returned (some e), reg := r }
    | .ok n =>
      match d.ImageList (name ++ ":*".toList) with
      | .error e =>
        { w := Write (WriteHeader ResponseWriter.fresh StatusInternalServerError) (.text e)
          outcome := .returned (some e), reg := r }
      | .ok imgSums =>
        { w := Write ResponseWriter.fresh (.tagList name (listTags name n imgSums))
          outcome := .returned none, reg := r }

/-- Handler `end_9`: manifest delete. -/
def end_9 (r : Registry) (_pathVars : List (Str × Str)) : Result :=
  { w := WriteHeader ResponseWriter.fresh StatusForbidden, outcome := .returned none, reg := r }

/-- Handler `end_10`. -/
def end_10 (r : Registry) (_pathVars : List (Str × Str)) : Result :=
  { w := WriteHeader ResponseWriter.fresh StatusForbidden, outcome := .returned none, reg := r }

/-- Handler `end_11`. -/
def end_11 (r : Registry) (_pathVars : List (Str × Str)) : Result :=
  { w := WriteHeader ResponseWriter.fresh StatusForbidden, outcome := .returned none, reg := r }

/-- Handler `end_12a_12b`: blob delete. -/
def end_12a_12b (r : Registry) (_pathVars : List (Str × Str)) : Result :=
  { w := WriteHeader ResponseWriter.fresh StatusForbidden, outcome := .returned none, reg := r }

/-- Handler `end_13`: upload delete. -/
def end_13 (r : Registry) (_pathVars : List (Str × Str)) : Result :=
  { w := WriteHeader ResponseWriter.fresh StatusForbidden, outcome := .returned none, reg := r }

/-- The routes of `BuildHandler` whose path pattern captures a repository name. -/
inductive Route where
  | blobGet | manifestGet | uploadPost | uploadPatch | uploadPut | manifestPut
  | tagsGet | manifestDelete | blobDelete | uploadDelete
  deriving DecidableEq, Repr

/-- The handler `BuildHandler` binds to each route. -/
def Route.handle (d : Docker) (j : Json)
    (order : List (Str × InspectResponse) → List (Str × InspectResponse))
    (r : Registry) (pathVars : List (Str × Str)) (q : QueryN) : Route → Result
  | .blobGet => end_2 d order r pathVars
  | .manifestGet => end_3 d j r pathVars
  | .uploadPost => end_4a_4b_11 r pathVars
  | .uploadPatch => end_5 r pathVars
  | .uploadPut => end_6 r pathVars
  | .manifestPut => end_7 r pathVars
  | .tagsGet => end_8a_8b d r pathVars q
  | .manifestDelete => end_9 r pathVars
  | .blobDelete => end_12a_12b r pathVars
  | .uploadDelete => end_13 r pathVars

/-- The routes that change the registry's content upstream: uploads, manifest put, deletes. -/
def Route.mutating : Route → Bool
  | .blobGet | .manifestGet | .tagsGet => false
  | _ => true

/-! ## Example data -/

/-- An image tagged `example/app:latest`. -/
def exampleImage : InspectResponse :=
  { ID := "sha256:c0".toList
    RepoTags := ["example/app:latest".toList]
    Layers := ["sha256:l1".toList, "sha256:l2".toList] }

/-- The registry right after `New` and `addImageToIndex` of the example image. -/
def exampleRegistry : Registry :=
  { New none with blobIndex := addImageToIndex [] exampleImage }

/-- An engine that holds no image. -/
def emptyDocker : Docker :=
  { ImageSave := fun _ id => .error ("No such image: ".toList ++ id)
    ImageInspect := fun id => .error ("No such image: ".toList ++ id)
    ImageList := fun _ => .ok [] }

/-- A decoder that accepts nothing. -/
def noJson : Json :=
  { decodeLayout := fun _ => .error "invalid".toList
    decodeIndex := fun _ _ => .error "invalid".toList
    unmarshalManifest := fun _ => .error "invalid".toList }

/-- The path variables of a request for repository `example/app`. -/
def examplePathVars : List (Str × Str) :=
  [("name".toList, "example/app".toList), ("reference".toList, "latest".toList),
   ("digest".toList, "sha256:l1".toList)]

/-! ## Notions the properties are stated with -/

/-- The image the index holds under digest `dg` with image ID `id`, if any. -/
def indexed (idx : BlobIndex) (dg id : Str) : Option InspectResponse :=
  (mapGet idx dg).bind (fun imgs => mapGet imgs id)

/-- No image is indexed under the empty image ID. -/
def IndexWF (idx : BlobIndex) : Prop :=
  ∀ p ∈ idx, ∀ q ∈ p.2, q.1 ≠ []

/-- The first path component of a repository name. -/
def firstComponent (repo : Str) : Str :=
  repo.takeWhile (fun c => c ≠ '/')

/-- Whether a first path component names a registry host, by the convention of image
references: it contains a `.` or a `:`, or it is `localhost`. -/
def isRegistryHost (c : Str) : Bool :=
  c.contains '.' || c.contains ':' || c == "localhost".toList

/-- The long form of a repository name, in the words of the spec (`x` becomes
`docker.io/library/x`, `a/b` becomes `docker.io/a/b`); a name with two or more slashes
is its own long form. -/
def longForm (repo : Str) : Str :=
  if Count repo '/' = 0 then "docker.io/library/".toList ++ repo
  else if Count repo '/' = 1 then "docker.io/".toList ++ repo
  else repo

/-- An image of another repository that shares the layer `sha256:l1` with the example
image. -/
def otherImage : InspectResponse :=
  { ID := "sha256:d0".toList
    RepoTags := ["ghcr.io/org/tool:1".toList]
    Layers := ["sha256:l1".toList, "sha256:l9".toList] }

/-- The example image as inspected after it was retagged `example/other:latest`. -/
def retaggedImage : InspectResponse :=
  { ID := "sha256:c0".toList
    RepoTags := ["example/other:latest".toList]
    Layers := ["sha256:l1".toList, "sha256:l2".toList] }

/-- Appending a tag unless it is already listed. -/
def addTag (tags : List Str) (t : Str) : List Str :=
  if t ∈ tags then tags else tags ++ [t]

/-- The suffixes after `name:` of the repo tags that start with `name:`, in order. -/
def tagSuffixes (name : Str) (repoTags : List Str) : List Str :=
  (repoTags.filter (fun t => HasPrefix t (name ++ ":".toList))).map
    (fun t => t.drop (name ++ ":".toList).length)

/-- Keeping only the first occurrence of each element. -/
def keepFirst : List Str → List Str
  | [] => []
  | t :: rest => t :: (keepFirst rest).filter (fun u => decide (u ≠ t))

/-- The dedup order `D` of the tag list: the suffixes after `name:` of all RepoTags
starting with `name:`, in store enumeration order, first occurrences only. -/
def dedupOrder (name : Str) (imgSums : List Summary) : List Str :=
  keepFirst (tagSuffixes name (imgSums.flatMap (fun imgSum => imgSum.RepoTags)))

/-- The tag accumulators agree: the keys of `tagSet` are the listed tags, as many, and
no tag is listed twice. -/
def TagAcc.Agree (acc : TagAcc) : Prop :=
  (∀ t, (mapGet acc.tagSet t).isSome = true ↔ t ∈ acc.Tags) ∧ acc.Tags.Nodup

/-- An engine that lists one image record carrying the tags `a:1`, `a:2`, `a:3`. -/
def tagsDocker : Docker :=
  { ImageSave := fun _ id => .error ("No such image: ".toList ++ id)
    ImageInspect := fun id => .error ("No such image: ".toList ++ id)
    ImageList := fun _ =>
      .ok [{ ID := "sha256:i1".toList
             RepoTags := ["a:1".toList, "a:2".toList, "a:3".toList] }] }

/-- Position `i` of the index is where the descriptor loop of `getManifest` stops with
the bytes `b` and their parsed form `m`: descriptor `i` has the buffered blob `b`, `b`
parses as `m`, the config digest of `m` is the image ID, and every descriptor before `i`
has a buffered blob that parses as a manifest with another config digest. -/
def MatchAt (j : Json) (imgID : Str) (index : List Descriptor)
    (smallBlobs : List (Str × Bytes)) (i : Nat) (b : Bytes) (m : Manifest) : Prop :=
  (∃ desc, index[i]? = some desc ∧ mapGet smallBlobs desc.Digest = some b) ∧
    j.unmarshalManifest b = .ok m ∧ m.ConfigDigest = imgID ∧
    ∀ k, k < i → ∃ dk bk mk, index[k]? = some dk ∧ mapGet smallBlobs dk.Digest = some bk ∧
      j.unmarshalManifest bk = .ok mk ∧ mk.ConfigDigest ≠ imgID

/-- The media type of an OCI image manifest. -/
def manifestMediaType : Str := "application/vnd.oci.image.manifest.v1+json".toList

/-- A toy decoder: the bytes `[1]` are an index of two manifests, `[2]` is a manifest of
another image and `[3]` the manifest of the example image. -/
def exampleJson : Json :=
  { decodeLayout := fun _ => .ok ()
    decodeIndex := fun _ b =>
      if b = [1] then
        .ok [{ Digest := "sha256:m0".toList, MediaType := manifestMediaType },
             { Digest := "sha256:m1".toList, MediaType := manifestMediaType }]
      else .error "invalid".toList
    unmarshalManifest := fun b =>
      if b = [2] then
        .ok { MediaType := manifestMediaType, ConfigDigest := "sha256:other".toList }
      else if b = [3] then
        .ok { MediaType := manifestMediaType, ConfigDigest := "sha256:c0".toList }
      else .error "invalid".toList }

/-- The save archive of the example image. -/
def exampleArchive : TarStream :=
  { entries :=
      [{ Name := "oci-layout".toList, Size := 1, content := .ok [0] },
       { Name := "blobs/sha256/l1".toList, Size := 3, content := .ok [7, 7, 7] },
       { Name := "blobs/sha256/m1".toList, Size := 1, content := .ok [3] },
       { Name := "index.json".toList, Size := 1, content := .ok [1] },
       { Name := "blobs/sha256/m0".toList, Size := 1, content := .ok [2] }]
    failure := none }

/-- What the archive pass collects from the example archive. -/
def exampleScan : ScanState :=
  { index :=
      [{ Digest := "sha256:m0".toList, MediaType := manifestMediaType },
       { Digest := "sha256:m1".toList, MediaType := manifestMediaType }]
    smallBlobs :=
      [("sha256:l1".toList, [7, 7, 7]), ("sha256:m1".toList, [3]), ("sha256:m0".toList, [2])] }

/-- The manifest of the example image. -/
def exampleManifest : cachedManifest :=
  { JSON := [3]
    Manifest := { MediaType := manifestMediaType, ConfigDigest := "sha256:c0".toList } }

/-- An engine that holds the example image. -/
def exampleDocker : Docker :=
  { ImageSave := fun _ id =>
      if id = "sha256:c0".toList then .ok exampleArchive
      else .error ("No such image: ".toList ++ id)
    ImageInspect := fun ref =>
      if ref = "example/app:latest".toList then .ok exampleImage
      else .error ("No such image: ".toList ++ ref)
    ImageList := fun _ =>
      .ok [{ ID := "sha256:c0".toList, RepoTags := ["example/app:latest".toList] }] }

/-- An archive entry under `blobs/` of 512 KiB plus one byte. -/
def bigEntry : TarEntry :=
  { Name := "blobs/sha256/big".toList, Size := 524289
    content := .ok (List.replicate 524289 0) }

/-- Something that happens to the registry after a manifest was cached: another
manifest resolution, an image indexed by `BuildIndex`, or a request to any route. -/
inductive Action where
  | manifest (img : InspectResponse)
  | index (img : InspectResponse)
  | request (route : Route) (pathVars : List (Str × Str)) (q : QueryN)

/-- The registry after one action. -/
def Action.apply (d : Docker) (j : Json)
    (order : List (Str × InspectResponse) → List (Str × InspectResponse))
    (r : Registry) : Action → Registry
  | .manifest img => (getAndCacheManifest d j r img).2
  | .index img => { r with blobIndex := addImageToIndex r.blobIndex img }
  | .request route pathVars q => (route.handle d j order r pathVars q).reg

/-- The registry after a sequence of actions. -/
def runActions (d : Docker) (j : Json)
    (order : List (Str × InspectResponse) → List (Str × InspectResponse))
    (actions : List Action) (r : Registry) : Registry :=
  actions.foldl (Action.apply d j order) r

/-! ## index.go: building the index; main.go -/

/-- The loop of `buildIndexForPrefix` over the listed summaries: the error returned, if
any, and the index afterwards (what was added before an error stays). -/
def indexSummaries (d : Docker) : List Summary → BlobIndex → Option Str × BlobIndex
  | [], idx => (none, idx)
  | imgSum :: rest, idx =>
    match d.ImageInspect imgSum.ID with
    | .error e =>
      (some ("inspecting image ".toList ++ imgSum.ID ++ ": ".toList ++ e), idx)
    | .ok img => indexSummaries d rest (addImageToIndex idx img)

/-- Method `Registry.buildIndexForPrefix`; `pfx` is the name prefix to list. -/
def buildIndexForPrefix (d : Docker) (idx : BlobIndex) (pfx : Str) : Option Str × BlobIndex :=
  match d.ImageList (pfx ++ "*:*".toList) with
  | .error e => (some ("listing images with prefix ".toList ++ pfx ++ ": ".toList ++ e), idx)
  | .ok imgSums => indexSummaries d imgSums idx

/-- The loop of `buildIndex` over the configured prefixes, in range order. -/
def buildIndexLoop (d : Docker) : List Str → BlobIndex → Option Str × BlobIndex
  | [], idx => (none, idx)
  | pfx :: rest, idx =>
    match buildIndexForPrefix d idx pfx with
    | (some e, idx1) => (some e, idx1)
    | (none, idx1) => buildIndexLoop d rest idx1

/-- Method `Registry.BuildIndex`: the error returned, if any, and the registry afterwards.
`prefixOrder` is the order in which `range` visits the prefix set. -/
def BuildIndex (d : Docker) (prefixOrder : List Str → List Str) (r : Registry) :
    Option Str × Registry :=
  match r.Prefixes with
  | none =>
    let res := buildIndexForPrefix d r.blobIndex []
    (res.1, { r with blobIndex := res.2 })
  | some ps =>
    let res := buildIndexLoop d (prefixOrder ps) r.blobIndex
    (res.1, { r with blobIndex := res.2 })

/-- Go `strings.Split(s, "")`: one string per character. -/
def SplitChars (s : Str) : List Str :=
  s.map (fun c => [c])

/-- The set the `if` block of `mainInner` fills: the keys of the map it makes from
`prefixList`. -/
def prefixSet : List Str → List (Str × Unit) → List (Str × Unit)
  | [], m => m
  | pfx :: rest, m => prefixSet rest (mapSet m pfx ())

/-- The variables named `prefixes` of `mainInner` after its `if` statement: the one
declared by `var prefixes map[string]struct{}` in the function body, which is the one
handed to `proxy.Config`, and the one the block declares with `:=`, which goes out of
scope at the end of the block (`none` when the block is not entered). -/
structure PrefixVars where
  outer : Option (List Str)
  inner : Option (List Str)
  deriving DecidableEq, Repr

/-- The prefix handling of `mainInner`, up to and including its `if` statement. -/
def mainInner_prefixes (prefixesStr : Str) : PrefixVars :=
  let outer : Option (List Str) := none
  if prefixesStr.length ≠ 0 then
    let prefixList := SplitChars prefixesStr
    let inner := (prefixSet prefixList []).map Prod.fst
    { outer := outer, inner := some inner }
  else
    { outer := outer, inner := none }

/-- Function `mainInner` up to the point where it starts serving: the registry whose
handler is served, or the error returned before that.  `client` is what
`docker.NewClientWithOpts` gives. -/
def mainInner (client : Except Str Docker) (prefixOrder : List Str → List Str)
    (prefixesStr : Str) : Except Str Registry :=
  let prefixes := (mainInner_prefixes prefixesStr).outer
  match client with
  | .error e => .error e
  | .ok d =>
    match BuildIndex d prefixOrder (New prefixes) with
    | (some e, _) => .error e
    | (none, reg) => .ok reg

/-- An engine whose save answer for every image is an archive that breaks off after its
first entry: `Next` then fails with `unexpected EOF`. -/
def brokenDocker : Docker :=
  { ImageSave := fun _ _ =>
      .ok { entries := [{ Name := "oci-layout".toList, Size := 1, content := .ok [0] }]
            failure := some "unexpected EOF".toList }
    ImageInspect := fun id => .error ("No such image: ".toList ++ id)
    ImageList := fun _ => .ok [] }

/-- The path variables of a request for the blob `sha256:l1` of `docker.io/example/app`. -/
def longPathVars : List (Str × Str) :=
  [("name".toList, "docker.io/example/app".toList), ("digest".toList, "sha256:l1".toList)]

/-! ## Strings and maps: basic facts -/

theorem HasPrefix_iff (s p : Str) : HasPrefix s p = true ↔ p <+: s := by
  unfold HasPrefix
  rw [Bool.and_eq_true, decide_eq_true_eq, beq_iff_eq, List.prefix_iff_eq_take]
  constructor
  · rintro ⟨_, h⟩
    exact h.symm
  · intro h
    refine ⟨?_, h.symm⟩
    have h2 := congrArg List.length h
    rw [List.length_take] at h2
    omega

theorem HasPrefix_append (p t : Str) : HasPrefix (p ++ t) p = true :=
  (HasPrefix_iff _ _).2 (List.prefix_append p t)

theorem mapGet_mapSet_same {V : Type} (m : List (Str × V)) (k : Str) (v : V) :
    mapGet (mapSet m k v) k = some v := by
  induction m with
  | nil => simp [mapSet, mapGet]
  | cons x rest ih =>
    obtain ⟨k1, v1⟩ := x
    by_cases hk : k1 = k
    · simp [mapSet, mapGet, hk]
    · simp [mapSet, mapGet, hk, ih]

theorem mapGet_mapSet_other {V : Type} (m : List (Str × V)) (k k2 : Str) (v : V)
    (h : k2 ≠ k) : mapGet (mapSet m k v) k2 = mapGet m k2 := by
  induction m with
  | nil =>
    have h2 : ¬ k = k2 := fun e => h e.symm
    simp [mapSet, mapGet, h2]
  | cons x rest ih =>
    obtain ⟨k1, v1⟩ := x
    by_cases hk : k1 = k
    · subst hk
      have h2 : ¬ k1 = k2 := fun e => h e.symm
      simp [mapSet, mapGet, h2]
    · by_cases hk2 : k1 = k2
      · subst hk2
        simp [mapSet, mapGet, hk]
      · simp [mapSet, mapGet, hk, hk2, ih]

theorem mapGet_mem {V : Type} (m : List (Str × V)) (k : Str) (v : V)
    (h : mapGet m k = some v) : (k, v) ∈ m := by
  induction m with
  | nil => simp [mapGet] at h
  | cons x rest ih =>
    obtain ⟨k1, v1⟩ := x
    by_cases hk : k1 = k
    · simp [mapGet, hk] at h
      simp [hk, h]
    · simp [mapGet, hk] at h
      exact List.mem_cons_of_mem _ (ih h)

theorem mapSet_mem {V : Type} (m : List (Str × V)) (k : Str) (v : V) (x : Str × V)
    (h : x ∈ mapSet m k v) : x ∈ m ∨ x = (k, v) := by
  induction m with
  | nil =>
    simp [mapSet] at h
    exact Or.inr h
  | cons y rest ih =>
    obtain ⟨k1, v1⟩ := y
    by_cases hk : k1 = k
    · simp [mapSet, hk] at h
      rcases h with h | h
      · exact Or.inr h
      · exact Or.inl (List.mem_cons_of_mem _ h)
    · simp [mapSet, hk] at h
      rcases h with h | h
      · exact Or.inl (by simp [h])
      · rcases ih h with h2 | h2
        · exact Or.inl (List.mem_cons_of_mem _ h2)
        · exact Or.inr h2

/-! ## Access policy -/

theorem anyPrefixOf_iff (name : Str) (ps : List Str) :
    anyPrefixOf name ps = true ↔ ∃ p ∈ ps, p <+: name := by
  induction ps with
  | nil => simp [anyPrefixOf]
  | cons p rest ih =>
    unfold anyPrefixOf
    by_cases hp : HasPrefix name p = true
    · simp only [hp, if_true, true_iff]
      exact ⟨p, List.mem_cons_self _ _, (HasPrefix_iff _ _).1 hp⟩
    · simp only [hp, if_false, Bool.false_eq_true, ih, List.mem_cons]
      constructor
      · rintro ⟨q, hq, hpre⟩
        exact ⟨q, Or.inr hq, hpre⟩
      · rintro ⟨q, hq | hq, hpre⟩
        · subst hq
          exact absurd ((HasPrefix_iff _ _).2 hpre) hp
        · exact ⟨q, hq, hpre⟩

/-- C3, as stated, fails: a registry whose prefix set is empty but not nil rejects the
name `example/app`. -/
theorem C3_empty_set_rejects :
    (New (some [])).Prefixes = some [] ∧
      HasAllowedPrefix (New (some [])) "example/app".toList = false := by
  decide

/-- C3, amended: `HasAllowedPrefix` returns true exactly when the prefix set is nil or
some prefix in the set is a string prefix of the name; a registry with an empty set
that is not nil rejects every name. -/
theorem C3_HasAllowedPrefix_iff (r : Registry) (name : Str) :
    (HasAllowedPrefix r name = true ↔
      (r.Prefixes = none ∨ ∃ ps, r.Prefixes = some ps ∧ ∃ p ∈ ps, p <+: name)) ∧
    HasAllowedPrefix { r with Prefixes := some [] } name = false := by
  refine ⟨?_, rfl⟩
  unfold HasAllowedPrefix
  cases hP : r.Prefixes with
  | none => simp
  | some ps => simp [anyPrefixOf_iff]

/-! ## Access control and status codes of the handlers -/

/-- C2, as stated, fails: a registry that allows only `library/` rejects the name
`example/app`, and the upload handler `end_5` still answers 403, not 404. -/
theorem C2_disallowed_upload_forbidden :
    HasAllowedPrefix (New (some ["library/".toList])) "example/app".toList = false ∧
      pathVar examplePathVars "name".toList = "example/app".toList ∧
      (end_5 (New (some ["library/".toList])) examplePathVars).w.code = 403 ∧
      (end_5 (New (some ["library/".toList])) examplePathVars).w.code ≠ StatusNotFound := by
  decide

/-- C2, amended: for a name the allowed-prefix set rejects, the reading handlers
(`end_2`, `end_3`, `end_8a_8b`) respond 404 and the mutating handlers respond 403, as
they do for every name and registry; no handler changes the registry. -/
theorem C2_disallowed_name_status (d : Docker) (j : Json)
    (order : List (Str × InspectResponse) → List (Str × InspectResponse))
    (r : Registry) (pathVars : List (Str × Str)) (q : QueryN)
    (h : HasAllowedPrefix r (pathVar pathVars "name".toList) = false) (route : Route) :
    (route.handle d j order r pathVars q).w.code =
        (if route.mutating then StatusForbidden else StatusNotFound) ∧
      (route.handle d j order r pathVars q).reg = r ∧
      (route.mutating = true → ∀ r2 pathVars2 q2,
        (route.handle d j order r2 pathVars2 q2).w.code = StatusForbidden) := by
  cases route <;>
    simp only [Route.handle, Route.mutating, end_2, end_3, end_8a_8b, end_4a_4b_11, end_5,
      end_6, end_7, end_9, end_12a_12b, end_13, h] <;>
    simp [WriteHeader, ResponseWriter.fresh, ResponseWriter.code]

theorem C2_disallowed_name_status_witness :
    HasAllowedPrefix (New (some ["library/".toList])) (pathVar examplePathVars "name".toList)
        = false ∧
      (Route.handle emptyDocker noJson id (New (some ["library/".toList])) examplePathVars
          .absent .blobGet).w.code = StatusNotFound :=
  ⟨by decide,
    (C2_disallowed_name_status emptyDocker noJson id (New (some ["library/".toList]))
      examplePathVars .absent (by decide) .blobGet).1⟩

/-- C10, as stated, fails: with every name allowed and an engine that knows no image,
`end_3` for `example/app` and reference `latest` answers 500, while a disallowed name
is answered 404. -/
theorem C10_unknown_reference_is_500 :
    HasAllowedPrefix (New none) (pathVar examplePathVars "name".toList) = true ∧
      emptyDocker.ImageInspect "example/app:latest".toList
        = .error "No such image: example/app:latest".toList ∧
      (end_3 emptyDocker noJson (New none) examplePathVars).w.code = 500 ∧
      (end_3 emptyDocker noJson (New (some ["library/".toList])) examplePathVars).w.code
        = 404 :=
  ⟨by decide, rfl, by decide, by decide⟩

/-- C10, amended: for an allowed name and a reference whose `ImageInspect` fails (an image
the store does not know included), `end_3` responds 500 with the error message as body,
returns that error and leaves the registry as it was; this differs from the 404 of a
disallowed name. -/
theorem C10_end_3_inspect_error (d : Docker) (j : Json) (r : Registry)
    (pathVars : List (Str × Str)) (e : Str)
    (hallow : HasAllowedPrefix r (pathVar pathVars "name".toList) = true)
    (hinspect : d.ImageInspect
      (end_3_imgID (pathVar pathVars "name".toList) (pathVar pathVars "reference".toList))
      = .error e) :
    (end_3 d j r pathVars).w =
      { status := some StatusInternalServerError, header := [], body := [.text e] } ∧
    (end_3 d j r pathVars).w.code = 500 ∧
    (end_3 d j r pathVars).w.code ≠ StatusNotFound ∧
    (end_3 d j r pathVars).outcome = .returned (some e) ∧
    (end_3 d j r pathVars).reg = r := by
  simp only [end_3, hallow, hinspect]
  simp [WriteHeader, Write, ResponseWriter.fresh, ResponseWriter.code,
    StatusInternalServerError, StatusNotFound]

theorem C10_end_3_inspect_error_witness :
    (end_3 emptyDocker noJson (New none) examplePathVars).w.code = 500 :=
  (C10_end_3_inspect_error emptyDocker noJson (New none) examplePathVars
    "No such image: example/app:latest".toList (by decide) rfl).2.1

/-! ## Blob index and blob resolution -/

theorem indexed_addBlobToIndex (idx : BlobIndex) (b : Str) (img : InspectResponse)
    (dg id : Str) :
    indexed (addBlobToIndex idx b img) dg id =
      if dg = b ∧ id = img.ID then some img else indexed idx dg id := by
  unfold indexed addBlobToIndex
  by_cases hdg : dg = b
  · subst hdg
    cases hget : mapGet idx dg with
    | none =>
      simp only [mapGet_mapSet_same, Option.bind]
      by_cases hid : id = img.ID
      · simp [hid, mapGet]
      · have h2 : ¬ img.ID = id := fun e => hid e.symm
        simp [hid, h2, mapGet]
    | some imgs =>
      simp only [mapGet_mapSet_same, Option.bind]
      by_cases hid : id = img.ID
      · simp [hid, mapGet_mapSet_same]
      · simp [hid, mapGet_mapSet_other _ _ _ _ hid]
  · cases hget : mapGet idx b with
    | none => simp [hdg, mapGet_mapSet_other _ _ _ _ hdg]
    | some imgs => simp [hdg, mapGet_mapSet_other _ _ _ _ hdg]

theorem indexed_foldl_addBlobToIndex (img : InspectResponse) (layers : List Str)
    (idx : BlobIndex) (dg id : Str) :
    indexed (layers.foldl (fun acc blobID => addBlobToIndex acc blobID img) idx) dg id =
      if dg ∈ layers ∧ id = img.ID then some img else indexed idx dg id := by
  induction layers generalizing idx with
  | nil => simp
  | cons b rest ih =>
    rw [List.foldl_cons, ih, indexed_addBlobToIndex]
    by_cases h1 : dg ∈ rest <;> by_cases h2 : dg = b <;> by_cases h3 : id = img.ID <;>
      simp [h1, h2, h3]

theorem indexed_addImageToIndex (idx : BlobIndex) (img : InspectResponse) (dg id : Str) :
    indexed (addImageToIndex idx img) dg id =
      if (dg ∈ img.Layers ∨ dg = img.ID) ∧ id = img.ID then some img
      else indexed idx dg id := by
  unfold addImageToIndex
  rw [indexed_addBlobToIndex, indexed_foldl_addBlobToIndex]
  by_cases h1 : dg ∈ img.Layers <;> by_cases h2 : dg = img.ID <;> by_cases h3 : id = img.ID <;>
    simp [h1, h2, h3]

theorem IndexWF_addBlobToIndex (idx : BlobIndex) (b : Str) (img : InspectResponse)
    (hwf : IndexWF idx) (hid : img.ID ≠ []) : IndexWF (addBlobToIndex idx b img) := by
  intro p hp q hq
  unfold addBlobToIndex at hp
  cases hget : mapGet idx b with
  | none =>
    rw [hget] at hp
    rcases mapSet_mem _ _ _ _ hp with h | h
    · exact hwf p h q hq
    · subst h
      simp at hq
      subst hq
      exact hid
  | some imgs =>
    rw [hget] at hp
    rcases mapSet_mem _ _ _ _ hp with h | h
    · exact hwf p h q hq
    · subst h
      rcases mapSet_mem _ _ _ _ hq with h2 | h2
      · exact hwf _ (mapGet_mem _ _ _ hget) q h2
      · subst h2
        exact hid

theorem IndexWF_addImageToIndex (idx : BlobIndex) (img : InspectResponse)
    (hwf : IndexWF idx) (hid : img.ID ≠ []) : IndexWF (addImageToIndex idx img) := by
  unfold addImageToIndex
  apply IndexWF_addBlobToIndex _ _ _ _ hid
  generalize img.Layers = layers
  induction layers generalizing idx with
  | nil => exact hwf
  | cons b rest ih => exact ih _ (IndexWF_addBlobToIndex _ _ _ hwf hid)

theorem anyTagMatches_iff (name : Str) (tags : List Str) :
    anyTagMatches name tags = true ↔ ∃ t ∈ tags, tagMatches name t = true := by
  induction tags with
  | nil => simp [anyTagMatches]
  | cons t rest ih =>
    unfold anyTagMatches
    by_cases ht : tagMatches name t = true
    · simp [ht]
    · simp [ht, ih]

theorem selectImage_found (name : Str) (l : List (Str × InspectResponse))
    (hne : ∀ q ∈ l, q.1 ≠ [])
    (hex : ∃ q ∈ l, anyTagMatches name q.2.RepoTags = true) :
    ∃ q ∈ l, selectImage name l = q.1 ∧ q.1 ≠ [] ∧ anyTagMatches name q.2.RepoTags = true := by
  induction l with
  | nil =>
    obtain ⟨q, hq, _⟩ := hex
    cases hq
  | cons x rest ih =>
    obtain ⟨id, im⟩ := x
    unfold selectImage
    by_cases hm : anyTagMatches name im.RepoTags = true
    · exact ⟨(id, im), List.mem_cons_self _ _, by simp [hm],
        hne _ (List.mem_cons_self _ _), hm⟩
    · obtain ⟨q, hq, hqm⟩ := hex
      have hq2 : q ∈ rest := by
        rcases List.mem_cons.1 hq with h | h
        · subst h
          exact absurd hqm hm
        · exact h
      obtain ⟨q2, hq2mem, hsel, hq2ne, hq2m⟩ :=
        ih (fun q hq => hne q (List.mem_cons_of_mem _ hq)) ⟨q, hq2, hqm⟩
      exact ⟨q2, List.mem_cons_of_mem _ hq2mem, by simp [hm, hsel], hq2ne, hq2m⟩

theorem Count_entry (repo tag : Str) (hslash : '/' ∉ tag) :
    Count (repo ++ ":".toList ++ tag) '/' = Count repo '/' := by
  unfold Count
  rw [List.count_append, List.count_append, List.count_eq_zero_of_not_mem hslash]
  have h0 : List.count '/' ":".toList = 0 := by decide
  rw [h0]
  rfl

theorem tagMatches_longForm (repo tag : Str) (hslash : '/' ∉ tag) :
    tagMatches (longForm repo) (repo ++ ":".toList ++ tag) = true := by
  unfold tagMatches longForm
  rw [Count_entry repo tag hslash]
  rcases hc : Count repo '/' with _ | _ | n
  · simp only [if_true]
    rw [HasPrefix_iff]
    exact ⟨tag, by simp [List.append_assoc]⟩
  · simp only [Nat.succ_ne_zero, if_false, if_true, Nat.zero_add]
    rw [HasPrefix_iff]
    exact ⟨tag, by simp [List.append_assoc]⟩
  · have h1 : ¬ n + 1 + 1 = 0 := by omega
    have h2 : ¬ n + 1 + 1 = 1 := by omega
    simp only [h1, h2, if_false]
    rw [HasPrefix_iff]
    exact ⟨tag, by simp [List.append_assoc]⟩

theorem indexed_foldl_addImageToIndex_kept (img : InspectResponse) (post : List InspectResponse)
    (idx : BlobIndex) (dg : Str) (hidx : indexed idx dg img.ID = some img)
    (hkept : ∀ x ∈ post, x.ID = img.ID → x = img) :
    indexed (post.foldl addImageToIndex idx) dg img.ID = some img := by
  induction post generalizing idx with
  | nil => exact hidx
  | cons x rest ih =>
    rw [List.foldl_cons]
    apply ih
    · rw [indexed_addImageToIndex]
      split
      · rename_i h
        rw [hkept x (List.mem_cons_self _ _) h.2.symm]
      · exact hidx
    · exact fun y hy => hkept y (List.mem_cons_of_mem _ hy)

theorem IndexWF_foldl_addImageToIndex (added : List InspectResponse) (idx : BlobIndex)
    (hwf : IndexWF idx) (hids : ∀ x ∈ added, x.ID ≠ []) :
    IndexWF (added.foldl addImageToIndex idx) := by
  induction added generalizing idx with
  | nil => exact hwf
  | cons x rest ih =>
    rw [List.foldl_cons]
    exact ih _ (IndexWF_addImageToIndex idx x hwf (hids x (List.mem_cons_self _ _)))
      (fun y hy => hids y (List.mem_cons_of_mem _ hy))

theorem end_2_resolve_of_indexed
    (order : List (Str × InspectResponse) → List (Str × InspectResponse))
    (horder : ∀ l, (order l).Perm l) (r : Registry) (img : InspectResponse)
    (name digest : Str) (hwf : IndexWF r.blobIndex)
    (hidx : indexed r.blobIndex digest img.ID = some img)
    (hmatch : anyTagMatches name img.RepoTags = true) :
    ∃ sel im imgs,
      end_2_resolve order r name digest = .ok sel ∧ sel ≠ [] ∧
        mapGet r.blobIndex digest = some imgs ∧ (sel, im) ∈ imgs ∧
        anyTagMatches name im.RepoTags = true := by
  unfold indexed at hidx
  cases hget : mapGet r.blobIndex digest with
  | none => simp [hget] at hidx
  | some imgs =>
    simp only [hget, Option.bind] at hidx
    have hmem : (img.ID, img) ∈ imgs := mapGet_mem _ _ _ hidx
    have hne : ∀ q ∈ order imgs, q.1 ≠ [] := fun q hq =>
      hwf _ (mapGet_mem _ _ _ hget) q ((horder imgs).mem_iff.1 hq)
    obtain ⟨q, hq, hsel, hqne, hqm⟩ :=
      selectImage_found name (order imgs) hne ⟨(img.ID, img), (horder imgs).mem_iff.2 hmem, hmatch⟩
    refine ⟨q.1, q.2, imgs, ?_, hqne, rfl, (horder imgs).mem_iff.1 hq, hqm⟩
    unfold end_2_resolve
    simp only [hget, hsel, hqne, if_false]

/-- C1, as stated, fails: with the image tagged `example/app:latest` indexed, the blob
resolution of `end_2` for name `example/app` and the image's layer digest or its ID
answers not-found, and so does the handler (404).  And an image that was added is no
longer found, under any name, once a record with the same ID and other tags is added:
after the retagged record, `docker.io/example/app` is answered not-found as well. -/
theorem C1_short_name_not_found :
    "example/app:latest".toList ∈ exampleImage.RepoTags ∧
      "sha256:l1".toList ∈ exampleImage.Layers ∧
      end_2_resolve id exampleRegistry "example/app".toList "sha256:l1".toList
        = .error "digest was not indexed as belonging to this repo".toList ∧
      end_2_resolve id exampleRegistry "example/app".toList exampleImage.ID
        = .error "digest was not indexed as belonging to this repo".toList ∧
      (end_2 emptyDocker id exampleRegistry examplePathVars).w.code = StatusNotFound ∧
      retaggedImage.ID = exampleImage.ID ∧
      end_2_resolve id
          { New none with
            blobIndex := [exampleImage, retaggedImage].foldl addImageToIndex [] }
          "docker.io/example/app".toList "sha256:l1".toList
        = .error "digest was not indexed as belonging to this repo".toList :=
  ⟨by decide, by decide, rfl, rfl, by decide, rfl, rfl⟩

/-- C1, amended: take a blob index that holds no empty image ID, add images with
non-empty IDs to it in any number, and let `img` be one of them whose record was not
replaced afterwards by another record with the same ID.  For every entry `repo:tag` of
its RepoTags (`tag` without a slash; when `repo` has exactly one slash, its first
component is not a registry host), the blob resolution of `end_2`, called with the long
form of `repo` (`docker.io/library/repo` for no slash, `docker.io/repo` for one, `repo`
for more) and with any layer digest of `img` or its ID as digest, selects an image
indexed under that digest whose tags match, in whatever order the candidates are
visited; it does not answer not-found. -/
theorem C1_resolve_long_form
    (order : List (Str × InspectResponse) → List (Str × InspectResponse))
    (horder : ∀ l, (order l).Perm l) (r : Registry)
    (before after : List InspectResponse) (img : InspectResponse)
    (repo tag digest : Str) (hwf : IndexWF r.blobIndex)
    (hids : ∀ x ∈ before ++ img :: after, x.ID ≠ [])
    (hkept : ∀ x ∈ after, x.ID = img.ID → x = img)
    (htag : repo ++ ":".toList ++ tag ∈ img.RepoTags)
    (hslash : '/' ∉ tag)
    (hhost : Count repo '/' = 1 → isRegistryHost (firstComponent repo) = false)
    (hd : digest ∈ img.Layers ∨ digest = img.ID) :
    ∃ sel im imgs,
      end_2_resolve order
          { r with blobIndex := (before ++ img :: after).foldl addImageToIndex r.blobIndex }
          (longForm repo) digest = .ok sel ∧
        sel ≠ [] ∧
        mapGet ((before ++ img :: after).foldl addImageToIndex r.blobIndex) digest
          = some imgs ∧
        (sel, im) ∈ imgs ∧
        anyTagMatches (longForm repo) im.RepoTags = true := by
  have _ := hhost
  have hwf2 : IndexWF ((before ++ img :: after).foldl addImageToIndex r.blobIndex) :=
    IndexWF_foldl_addImageToIndex _ _ hwf hids
  have hidx : indexed ((before ++ img :: after).foldl addImageToIndex r.blobIndex) digest img.ID
      = some img := by
    rw [List.foldl_append, List.foldl_cons]
    apply indexed_foldl_addImageToIndex_kept img after _ digest _ hkept
    rw [indexed_addImageToIndex]
    simp [hd]
  exact end_2_resolve_of_indexed order horder
    { r with blobIndex := (before ++ img :: after).foldl addImageToIndex r.blobIndex }
    img (longForm repo) digest hwf2 hidx
    ((anyTagMatches_iff _ _).2 ⟨_, htag, tagMatches_longForm repo tag hslash⟩)

theorem C1_resolve_long_form_witness :
    IndexWF (addImageToIndex [] otherImage) ∧
    longForm "example/app".toList = "docker.io/example/app".toList ∧
    end_2_resolve id
        { New none with
          blobIndex := ([otherImage] ++ exampleImage :: [otherImage]).foldl addImageToIndex
            (addImageToIndex [] otherImage) }
        "docker.io/example/app".toList "sha256:l1".toList = .ok "sha256:c0".toList ∧
    ∃ sel im imgs,
      end_2_resolve id
          { New none with
            blobIndex := ([otherImage] ++ exampleImage :: [otherImage]).foldl addImageToIndex
              (addImageToIndex [] otherImage) }
          (longForm "example/app".toList) "sha256:l1".toList = .ok sel ∧
        sel ≠ [] ∧
        mapGet (([otherImage] ++ exampleImage :: [otherImage]).foldl addImageToIndex
          (addImageToIndex [] otherImage)) "sha256:l1".toList = some imgs ∧
        (sel, im) ∈ imgs ∧
        anyTagMatches (longForm "example/app".toList) im.RepoTags = true :=
  ⟨IndexWF_addImageToIndex [] otherImage (by intro p hp; cases hp) (by decide),
    by decide, rfl,
    C1_resolve_long_form id (fun l => List.Perm.refl l)
      { New none with blobIndex := addImageToIndex [] otherImage }
      [otherImage] [otherImage] exampleImage
      "example/app".toList "latest".toList "sha256:l1".toList
      (IndexWF_addImageToIndex [] otherImage (by intro p hp; cases hp) (by decide))
      (by decide) (by decide) (by decide) (by decide) (fun _ => by decide)
      (Or.inl (by decide))⟩

/-! ## Tag list -/

/-- C4 at its own example: one image record carries `a:1`, `a:2`, `a:3`; with `n = 2` the
tag loop of `end_8a_8b` lists all three tags, and the handler sends them. -/
theorem C4_three_tags_for_n_2 :
    listTags "a".toList 2
        [{ ID := "sha256:i1".toList, RepoTags := ["a:1".toList, "a:2".toList, "a:3".toList] }]
      = ["1".toList, "2".toList, "3".toList] ∧
    (end_8a_8b tagsDocker (New none) [("name".toList, "a".toList)] (.parsed 2)).w.body
      = [.tagList "a".toList ["1".toList, "2".toList, "3".toList]] ∧
    (end_8a_8b tagsDocker (New none) [("name".toList, "a".toList)] (.parsed 2)).w.code = 200 := by
  decide

theorem tagSuffixes_append (name : Str) (l1 l2 : List Str) :
    tagSuffixes name (l1 ++ l2) = tagSuffixes name l1 ++ tagSuffixes name l2 := by
  simp [tagSuffixes]

theorem addTag_isPrefix (tags : List Str) (t : Str) : tags <+: addTag tags t := by
  unfold addTag
  split
  · exact List.prefix_refl _
  · exact List.prefix_append _ _

theorem foldl_addTag_isPrefix (l tags : List Str) : tags <+: l.foldl addTag tags := by
  induction l generalizing tags with
  | nil => exact List.prefix_refl _
  | cons t rest ih => exact (addTag_isPrefix tags t).trans (ih _)

theorem foldl_addTag_eq (l tags : List Str) :
    l.foldl addTag tags = tags ++ (keepFirst l).filter (fun u => decide (u ∉ tags)) := by
  induction l generalizing tags with
  | nil => simp [keepFirst]
  | cons t rest ih =>
    rw [List.foldl_cons, ih]
    unfold addTag
    by_cases ht : t ∈ tags
    · simp only [ht, if_true, keepFirst]
      rw [List.filter_cons_of_neg (by simpa using ht), List.filter_filter]
      congr 1
      apply List.filter_congr
      intro u _
      by_cases hu : u ∈ tags
      · simp [hu]
      · have : u ≠ t := fun e => hu (e ▸ ht)
        simp [hu, this]
    · simp only [ht, if_false, keepFirst]
      rw [List.filter_cons_of_pos (by simpa using ht), List.filter_filter, List.append_assoc]
      congr 1
      simp only [List.singleton_append]
      congr 1
      apply List.filter_congr
      intro u _
      by_cases hu : u ∈ tags <;> by_cases hut : u = t <;> simp [hu, hut]

theorem foldl_addTag_nil (l : List Str) : l.foldl addTag [] = keepFirst l := by
  rw [foldl_addTag_eq]
  simp

theorem tagStep_agree (name : Str) (acc : TagAcc) (repoTag : Str) (h : acc.Agree) :
    (tagStep name acc repoTag).Agree ∧
      (tagStep name acc repoTag).Tags = (tagSuffixes name [repoTag]).foldl addTag acc.Tags := by
  unfold tagStep tagSuffixes TrimPrefix
  generalize name ++ ":".toList = pfx
  by_cases hp : HasPrefix repoTag pfx = true
  · have hf : List.filter (fun t => HasPrefix t pfx) [repoTag] = [repoTag] := by simp [hp]
    rw [hf]
    simp only [hp, Bool.not_true, Bool.false_eq_true, if_false, if_true,
      List.filter_nil, List.map_cons, List.map_nil, List.foldl_cons, List.foldl_nil]
    generalize repoTag.drop pfx.length = tag
    cases hget : mapGet acc.tagSet tag with
    | some u =>
      have hmem : tag ∈ acc.Tags := (h.1 _).1 (by rw [hget]; rfl)
      exact ⟨h, by simp [addTag, hmem]⟩
    | none =>
      have hnmem : tag ∉ acc.Tags := fun hm => by
        have := (h.1 _).2 hm
        rw [hget] at this
        cases this
      refine ⟨⟨?_, ?_⟩, by simp [addTag, hnmem]⟩
      · intro t
        by_cases ht : t = tag
        · subst ht
          simp [mapGet_mapSet_same]
        · rw [mapGet_mapSet_other _ _ _ _ ht, h.1 t]
          simp [ht]
      · exact List.Nodup.append h.2 (List.nodup_singleton _) (by simpa using hnmem)
  · have hf : List.filter (fun t => HasPrefix t pfx) [repoTag] = [] := by simp [hp]
    rw [hf]
    simp only [hp, Bool.not_false, if_true, Bool.false_eq_true]
    exact ⟨h, by simp⟩

theorem foldl_tagStep_agree (name : Str) (repoTags : List Str) (acc : TagAcc) (h : acc.Agree) :
    (repoTags.foldl (tagStep name) acc).Agree ∧
      (repoTags.foldl (tagStep name) acc).Tags
        = (tagSuffixes name repoTags).foldl addTag acc.Tags := by
  induction repoTags generalizing acc with
  | nil => exact ⟨h, by simp [tagSuffixes]⟩
  | cons t rest ih =>
    obtain ⟨h1, e1⟩ := tagStep_agree name acc t h
    obtain ⟨h2, e2⟩ := ih _ h1
    refine ⟨h2, ?_⟩
    rw [List.foldl_cons, e2, e1]
    have : t :: rest = [t] ++ rest := rfl
    rw [this, tagSuffixes_append, List.foldl_append]

theorem tagLoop_spec (name : Str) (n : Int) (imgSums : List Summary) (acc : TagAcc)
    (h : acc.Agree) :
    (tagLoop name n imgSums acc).Agree ∧
      (tagLoop name n imgSums acc).Tags <+:
        (tagSuffixes name (imgSums.flatMap (fun imgSum => imgSum.RepoTags))).foldl addTag acc.Tags ∧
      (n = 0 → (tagLoop name n imgSums acc).Tags =
        (tagSuffixes name (imgSums.flatMap (fun imgSum => imgSum.RepoTags))).foldl addTag
          acc.Tags) := by
  induction imgSums generalizing acc with
  | nil => exact ⟨h, by simp [tagLoop, tagSuffixes], fun _ => by simp [tagLoop, tagSuffixes]⟩
  | cons imgSum rest ih =>
    obtain ⟨h1, e1⟩ := foldl_tagStep_agree name imgSum.RepoTags acc h
    obtain ⟨h2, p2, e2⟩ := ih _ h1
    have hsplit : (tagSuffixes name
          ((imgSum :: rest).flatMap (fun imgSum => imgSum.RepoTags))).foldl addTag acc.Tags
        = (tagSuffixes name (rest.flatMap (fun imgSum => imgSum.RepoTags))).foldl addTag
            (imgSum.RepoTags.foldl (tagStep name) acc).Tags := by
      rw [List.flatMap_cons, tagSuffixes_append, List.foldl_append, e1]
    rw [hsplit]
    unfold tagLoop
    by_cases hbreak : n ≠ 0 ∧ ((imgSum.RepoTags.foldl (tagStep name) acc).tagSet.length : Int) ≥ n
    · simp only []
      rw [if_pos hbreak]
      exact ⟨h1, foldl_addTag_isPrefix _ _, fun h0 => absurd h0 hbreak.1⟩
    · simp only []
      rw [if_neg hbreak]
      exact ⟨h2, p2, e2⟩

/-- C5: for every list of image summaries the store returns and every `n` (absent counts
as 0), the tags `end_8a_8b` sends contain no duplicates and form a prefix of the dedup
order `D`; when `n` is 0 or absent they equal `D`. -/
theorem C5_tags_prefix_of_dedup_order (d : Docker) (r : Registry)
    (pathVars : List (Str × Str)) (q : QueryN) (n : Int) (imgSums : List Summary)
    (hallow : HasAllowedPrefix r (pathVar pathVars "name".toList) = true)
    (hq : (q = .absent ∧ n = 0) ∨ q = .parsed n)
    (hlist : d.ImageList (pathVar pathVars "name".toList ++ ":*".toList) = .ok imgSums) :
    (end_8a_8b d r pathVars q).w.body =
        [.tagList (pathVar pathVars "name".toList)
          (listTags (pathVar pathVars "name".toList) n imgSums)] ∧
      (listTags (pathVar pathVars "name".toList) n imgSums).Nodup ∧
      listTags (pathVar pathVars "name".toList) n imgSums <+:
        dedupOrder (pathVar pathVars "name".toList) imgSums ∧
      (n = 0 → listTags (pathVar pathVars "name".toList) n imgSums =
        dedupOrder (pathVar pathVars "name".toList) imgSums) := by
  have hagree : TagAcc.Agree { Tags := [], tagSet := [] } :=
    ⟨fun t => by simp [mapGet], List.nodup_nil⟩
  obtain ⟨h1, h2, h3⟩ := tagLoop_spec (pathVar pathVars "name".toList) n imgSums _ hagree
  rw [foldl_addTag_nil] at h2 h3
  refine ⟨?_, h1.2, h2, h3⟩
  rcases hq with ⟨hq, hn⟩ | hq
  · subst hq hn
    simp only [end_8a_8b, hallow, hlist]
    simp [Write, WriteHeader, ResponseWriter.fresh]
  · subst hq
    simp only [end_8a_8b, hallow, hlist]
    simp [Write, WriteHeader, ResponseWriter.fresh]

theorem C5_tags_prefix_of_dedup_order_witness :
    (end_8a_8b tagsDocker (New none) [("name".toList, "a".toList)] .absent).w.body =
        [.tagList (pathVar [("name".toList, "a".toList)] "name".toList)
          (listTags (pathVar [("name".toList, "a".toList)] "name".toList) 0
            [{ ID := "sha256:i1".toList
               RepoTags := ["a:1".toList, "a:2".toList, "a:3".toList] }])] ∧
      (listTags (pathVar [("name".toList, "a".toList)] "name".toList) 0
        [{ ID := "sha256:i1".toList
           RepoTags := ["a:1".toList, "a:2".toList, "a:3".toList] }]).Nodup :=
  let h := C5_tags_prefix_of_dedup_order tagsDocker (New none) [("name".toList, "a".toList)]
    .absent 0
    [{ ID := "sha256:i1".toList, RepoTags := ["a:1".toList, "a:2".toList, "a:3".toList] }]
    (by decide) (Or.inl ⟨rfl, rfl⟩) rfl
  ⟨h.1, h.2.1⟩

/-! ## Manifest extraction -/

theorem matchManifest_ok_iff (j : Json) (imgID : Str) (smallBlobs : List (Str × Bytes))
    (index : List Descriptor) (m : cachedManifest) :
    matchManifest j imgID smallBlobs index = .ok m ↔
      ∃ i, MatchAt j imgID index smallBlobs i m.JSON m.Manifest := by
  induction index with
  | nil =>
    simp only [matchManifest, MatchAt]
    constructor
    · intro h
      cases h
    · rintro ⟨i, ⟨desc, hd, _⟩, _⟩
      simp at hd
  | cons d ds ih =>
    unfold matchManifest
    cases hget : mapGet smallBlobs d.Digest with
    | none =>
      simp only []
      constructor
      · intro h
        cases h
      · rintro ⟨i, ⟨desc, hd, hb⟩, _, _, hprev⟩
        cases i with
        | zero =>
          simp at hd
          subst hd
          rw [hget] at hb
          cases hb
        | succ i =>
          obtain ⟨dk, bk, mk, hdk, hbk, _⟩ := hprev 0 (Nat.succ_pos _)
          simp at hdk
          subst hdk
          rw [hget] at hbk
          cases hbk
    | some b0 =>
      simp only []
      cases hparse : j.unmarshalManifest b0 with
      | error e =>
        simp only []
        constructor
        · intro h
          cases h
        · rintro ⟨i, ⟨desc, hd, hb⟩, hp, _, hprev⟩
          cases i with
          | zero =>
            simp at hd
            subst hd
            rw [hget] at hb
            cases hb
            rw [hparse] at hp
            cases hp
          | succ i =>
            obtain ⟨dk, bk, mk, hdk, hbk, hpk, _⟩ := hprev 0 (Nat.succ_pos _)
            simp at hdk
            subst hdk
            rw [hget] at hbk
            cases hbk
            rw [hparse] at hpk
            cases hpk
      | ok m0 =>
        simp only []
        by_cases hcfg : m0.ConfigDigest = imgID
        · rw [if_pos hcfg]
          constructor
          · intro h
            cases h
            exact ⟨0, ⟨d, by simp, hget⟩, hparse, hcfg, fun k hk => absurd hk (Nat.not_lt_zero k)⟩
          · rintro ⟨i, ⟨desc, hd, hb⟩, hp, _, hprev⟩
            cases i with
            | zero =>
              simp at hd
              subst hd
              rw [hget] at hb
              cases hb
              rw [hparse] at hp
              cases hp
              rfl
            | succ i =>
              obtain ⟨dk, bk, mk, hdk, hbk, hpk, hne⟩ := hprev 0 (Nat.succ_pos _)
              simp at hdk
              subst hdk
              rw [hget] at hbk
              cases hbk
              rw [hparse] at hpk
              cases hpk
              exact absurd hcfg hne
        · rw [if_neg hcfg, ih]
          constructor
          · rintro ⟨i, ⟨desc, hd, hb⟩, hp, hc, hprev⟩
            refine ⟨i + 1, ⟨desc, by simpa using hd, hb⟩, hp, hc, ?_⟩
            intro k hk
            cases k with
            | zero => exact ⟨d, b0, m0, by simp, hget, hparse, hcfg⟩
            | succ k =>
              obtain ⟨dk, bk, mk, hdk, rest⟩ := hprev k (Nat.lt_of_succ_lt_succ hk)
              exact ⟨dk, bk, mk, by simpa using hdk, rest⟩
          · rintro ⟨i, ⟨desc, hd, hb⟩, hp, hc, hprev⟩
            cases i with
            | zero =>
              simp at hd
              subst hd
              rw [hget] at hb
              cases hb
              rw [hparse] at hp
              cases hp
              exact absurd hc hcfg
            | succ i =>
              refine ⟨i, ⟨desc, by simpa using hd, hb⟩, hp, hc, ?_⟩
              intro k hk
              obtain ⟨dk, bk, mk, hdk, rest⟩ := hprev (k + 1) (Nat.succ_lt_succ hk)
              exact ⟨dk, bk, mk, by simpa using hdk, rest⟩

theorem getManifestFromScan_ok_iff (j : Json) (imgID : Str) (index : List Descriptor)
    (smallBlobs : List (Str × Bytes)) (m : cachedManifest) :
    getManifestFromScan j imgID index smallBlobs = .ok m ↔
      index ≠ [] ∧ ∃ i, MatchAt j imgID index smallBlobs i m.JSON m.Manifest := by
  unfold getManifestFromScan
  by_cases hlen : index.length = 0
  · rw [if_pos hlen]
    have hnil : index = [] := List.length_eq_zero.1 hlen
    constructor
    · intro h
      cases h
    · rintro ⟨hne, _⟩
      exact absurd hnil hne
  · rw [if_neg hlen, matchManifest_ok_iff]
    have hne : index ≠ [] := fun e => hlen (by rw [e]; rfl)
    exact ⟨fun h => ⟨hne, h⟩, fun h => h.2⟩

/-- C6: given the index descriptors and the buffered blobs the archive pass collected,
`getManifest` returns `m` exactly when the index is not empty and there is a position
`i` such that every descriptor before `i` has a buffered blob that parses as a manifest
with a config digest other than the image ID, and descriptor `i` has a buffered blob
that parses as a manifest with the image ID as config digest, `m` being those bytes and
their parsed form; so it succeeds exactly when such a position exists, and fails for an
empty index, a missing or unparsable blob before a match, or no match. -/
theorem C6_getManifest_ok_iff (d : Docker) (j : Json) (calls : Nat) (img : InspectResponse)
    (t : TarStream) (st : ScanState)
    (hsave : d.ImageSave calls img.ID = .ok t) (hscan : scanArchive j t = .ok st) :
    (∀ m, getManifest d j calls img = .ok m ↔
      st.index ≠ [] ∧ ∃ i, MatchAt j img.ID st.index st.smallBlobs i m.JSON m.Manifest) ∧
    ((∃ m, getManifest d j calls img = .ok m) ↔
      st.index ≠ [] ∧ ∃ i b p, MatchAt j img.ID st.index st.smallBlobs i b p) := by
  have hm : ∀ m, getManifest d j calls img = .ok m ↔
      st.index ≠ [] ∧ ∃ i, MatchAt j img.ID st.index st.smallBlobs i m.JSON m.Manifest := by
    intro m
    unfold getManifest
    simp only [hsave, hscan]
    exact getManifestFromScan_ok_iff j img.ID st.index st.smallBlobs m
  refine ⟨hm, ?_⟩
  constructor
  · rintro ⟨m, h⟩
    obtain ⟨hne, i, hi⟩ := (hm m).1 h
    exact ⟨hne, i, m.JSON, m.Manifest, hi⟩
  · rintro ⟨hne, i, b, p, hi⟩
    exact ⟨{ JSON := b, Manifest := p }, (hm _).2 ⟨hne, i, hi⟩⟩

theorem C6_getManifest_ok_iff_witness :
    getManifest exampleDocker exampleJson 0 exampleImage = .ok exampleManifest ∧
      exampleScan.index ≠ [] ∧
      ∃ i, MatchAt exampleJson exampleImage.ID exampleScan.index exampleScan.smallBlobs i
        exampleManifest.JSON exampleManifest.Manifest :=
  ⟨rfl, ((C6_getManifest_ok_iff exampleDocker exampleJson 0 exampleImage exampleArchive
    exampleScan rfl rfl).1 exampleManifest).1 rfl⟩

/-- C7: the cap the archive pass of `getManifest` compares against is 536870912 bytes
(512 MiB), not 524288 (512 KiB): every entry under `blobs/` larger than 512 KiB and at
most 512 MiB whose content can be read is buffered under the digest derived from its
path, not skipped. -/
theorem C7_entry_above_512KiB_buffered (j : Json) (st : ScanState) (h : TarEntry) (b : Bytes)
    (hname : HasPrefix h.Name (ImageBlobsDir ++ "/".toList) = true)
    (hbig : 524288 < h.Size) (hcap : h.Size ≤ 536870912) (hcontent : h.content = .ok b) :
    smallBlobCap = 536870912 ∧
    scanEntry j st h = .ok { st with
      smallBlobs := mapSet st.smallBlobs
        (ReplaceAll (TrimPrefix h.Name (ImageBlobsDir ++ "/".toList)) '/' ':') b } := by
  have hcapv : smallBlobCap = 536870912 := by decide
  refine ⟨hcapv, ?_⟩
  have h1 : h.Name ≠ ImageLayoutFile := by
    intro e
    rw [e] at hname
    revert hname
    decide
  have h2 : h.Name ≠ ImageIndexFile := by
    intro e
    rw [e] at hname
    revert hname
    decide
  have h3 : ¬ h.Size > smallBlobCap := by
    rw [hcapv]
    omega
  unfold scanEntry
  rw [if_neg h1, if_neg h2, if_neg h3]
  simp only [hname, Bool.not_true, Bool.false_eq_true, if_false, hcontent]

theorem C7_entry_above_512KiB_buffered_witness :
    524288 < bigEntry.Size ∧
    ReplaceAll (TrimPrefix bigEntry.Name (ImageBlobsDir ++ "/".toList)) '/' ':'
      = "sha256:big".toList ∧
    scanEntry exampleJson { index := [], smallBlobs := [] } bigEntry =
      .ok { index := []
            smallBlobs := mapSet []
              (ReplaceAll (TrimPrefix bigEntry.Name (ImageBlobsDir ++ "/".toList)) '/' ':')
              (List.replicate 524289 0) } :=
  ⟨by decide, by decide,
    (C7_entry_above_512KiB_buffered exampleJson { index := [], smallBlobs := [] } bigEntry
      (List.replicate 524289 0) (by decide) (by decide) (by decide) rfl).2⟩

/-! ## Manifest cache -/

theorem getAndCacheManifest_hit (d : Docker) (j : Json) (r : Registry) (img : InspectResponse)
    (m : cachedManifest) (h : mapGet r.manifestCache img.ID = some m) :
    getAndCacheManifest d j r img = (.ok m, r) := by
  unfold getAndCacheManifest
  rw [h]

theorem getAndCacheManifest_cache_persists (d : Docker) (j : Json) (r : Registry)
    (img : InspectResponse) (k : Str) (m : cachedManifest)
    (h : mapGet r.manifestCache k = some m) :
    mapGet (getAndCacheManifest d j r img).2.manifestCache k = some m := by
  unfold getAndCacheManifest
  cases hc : mapGet r.manifestCache img.ID with
  | some m0 => exact h
  | none =>
    cases hg : getManifest d j r.saveCalls img with
    | error e => exact h
    | ok m1 =>
      have hk : k ≠ img.ID := by
        intro e
        rw [e, hc] at h
        cases h
      simp only []
      rw [mapGet_mapSet_other _ _ _ _ hk]
      exact h

theorem end_2_stream_reg (digest : Str) (failure : Option Str) (r : Registry)
    (entries : List TarEntry) : (end_2_stream digest failure r entries).reg = r := by
  induction entries with
  | nil =>
    unfold end_2_stream
    cases failure <;> rfl
  | cons h rest ih =>
    unfold end_2_stream
    by_cases hn : h.Name ≠ "blobs/".toList ++ ReplaceAll digest ':' '/'
    · rw [if_pos hn]
      exact ih
    · rw [if_neg hn]
      cases h.content <;> rfl

theorem end_2_manifestCache (d : Docker)
    (order : List (Str × InspectResponse) → List (Str × InspectResponse))
    (r : Registry) (pathVars : List (Str × Str)) :
    (end_2 d order r pathVars).reg.manifestCache = r.manifestCache := by
  unfold end_2
  simp only []
  split
  · rfl
  · split
    · rfl
    · split
      · rfl
      · rw [end_2_stream_reg]

theorem end_3_cache_persists (d : Docker) (j : Json) (r : Registry)
    (pathVars : List (Str × Str)) (k : Str) (m : cachedManifest)
    (h : mapGet r.manifestCache k = some m) :
    mapGet (end_3 d j r pathVars).reg.manifestCache k = some m := by
  unfold end_3
  simp only []
  split
  · exact h
  · split
    · exact h
    · rename_i img _
      have hp := getAndCacheManifest_cache_persists d j r img k m h
      split <;> rename_i heq <;> rw [heq] at hp <;> exact hp

theorem end_8a_8b_reg (d : Docker) (r : Registry) (pathVars : List (Str × Str)) (q : QueryN) :
    (end_8a_8b d r pathVars q).reg = r := by
  unfold end_8a_8b
  simp only []
  split
  · rfl
  · split
    · rfl
    · split <;> rfl

theorem Action.apply_cache_persists (d : Docker) (j : Json)
    (order : List (Str × InspectResponse) → List (Str × InspectResponse))
    (r : Registry) (a : Action) (k : Str) (m : cachedManifest)
    (h : mapGet r.manifestCache k = some m) :
    mapGet (a.apply d j order r).manifestCache k = some m := by
  cases a with
  | manifest img => exact getAndCacheManifest_cache_persists d j r img k m h
  | index img => exact h
  | request route pathVars q =>
    cases route
    case blobGet =>
      show mapGet (end_2 d order r pathVars).reg.manifestCache k = some m
      rw [end_2_manifestCache]
      exact h
    case manifestGet => exact end_3_cache_persists d j r pathVars k m h
    case tagsGet =>
      show mapGet (end_8a_8b d r pathVars q).reg.manifestCache k = some m
      rw [end_8a_8b_reg]
      exact h
    all_goals exact h

theorem runActions_cache_persists (d : Docker) (j : Json)
    (order : List (Str × InspectResponse) → List (Str × InspectResponse))
    (actions : List Action) (r : Registry) (k : Str) (m : cachedManifest)
    (h : mapGet r.manifestCache k = some m) :
    mapGet (runActions d j order actions r).manifestCache k = some m := by
  induction actions generalizing r with
  | nil => exact h
  | cons a rest ih => exact ih _ (Action.apply_cache_persists d j order r a k m h)

theorem getAndCacheManifest_ok_cached (d : Docker) (j : Json) (r r1 : Registry)
    (img : InspectResponse) (m : cachedManifest)
    (h : getAndCacheManifest d j r img = (.ok m, r1)) :
    mapGet r1.manifestCache img.ID = some m := by
  unfold getAndCacheManifest at h
  cases hc : mapGet r.manifestCache img.ID with
  | some m0 =>
    rw [hc] at h
    simp only [Prod.mk.injEq, Except.ok.injEq] at h
    rw [← h.2, ← h.1]
    exact hc
  | none =>
    rw [hc] at h
    cases hg : getManifest d j r.saveCalls img with
    | error e =>
      rw [hg] at h
      simp at h
    | ok m1 =>
      rw [hg] at h
      simp only [Prod.mk.injEq, Except.ok.injEq] at h
      rw [← h.2, ← h.1]
      exact mapGet_mapSet_same _ _ _

/-- C8: after one successful `getAndCacheManifest(img)`, and whatever manifest
resolutions, index additions and requests happen next, a `getAndCacheManifest` for an
image with the same ID returns the very manifest of the first call (so its JSON is
byte-identical) and leaves the registry as it was: no `ImageSave` call is made (the
save-call count is unchanged) and cache and index are unchanged. -/
theorem C8_cached_manifest_reused (d : Docker) (j : Json)
    (order : List (Str × InspectResponse) → List (Str × InspectResponse))
    (r r1 : Registry) (img img2 : InspectResponse) (m : cachedManifest)
    (actions : List Action)
    (hfirst : getAndCacheManifest d j r img = (.ok m, r1)) (hid : img2.ID = img.ID) :
    getAndCacheManifest d j (runActions d j order actions r1) img2
        = (.ok m, runActions d j order actions r1) ∧
      (∀ m2 r2, getAndCacheManifest d j (runActions d j order actions r1) img2 = (.ok m2, r2) →
        m2.JSON = m.JSON ∧
        r2.saveCalls = (runActions d j order actions r1).saveCalls ∧
        r2.manifestCache = (runActions d j order actions r1).manifestCache ∧
        r2.blobIndex = (runActions d j order actions r1).blobIndex) := by
  have hc := getAndCacheManifest_ok_cached d j r r1 img m hfirst
  have hc2 := runActions_cache_persists d j order actions r1 img.ID m hc
  rw [← hid] at hc2
  have hhit := getAndCacheManifest_hit d j _ img2 m hc2
  refine ⟨hhit, ?_⟩
  intro m2 r2 h2
  rw [hhit] at h2
  simp only [Prod.mk.injEq, Except.ok.injEq] at h2
  rw [← h2.1, ← h2.2]
  exact ⟨rfl, rfl, rfl, rfl⟩

theorem C8_cached_manifest_reused_witness :
    getAndCacheManifest exampleDocker exampleJson (New none) exampleImage
        = (.ok exampleManifest,
            (getAndCacheManifest exampleDocker exampleJson (New none) exampleImage).2) ∧
      getAndCacheManifest exampleDocker exampleJson
          (runActions exampleDocker exampleJson id
            [.request .blobGet examplePathVars .absent, .manifest exampleImage]
            (getAndCacheManifest exampleDocker exampleJson (New none) exampleImage).2)
          exampleImage
        = (.ok exampleManifest,
            runActions exampleDocker exampleJson id
              [.request .blobGet examplePathVars .absent, .manifest exampleImage]
              (getAndCacheManifest exampleDocker exampleJson (New none) exampleImage).2) :=
  ⟨rfl,
    (C8_cached_manifest_reused exampleDocker exampleJson id (New none)
      (getAndCacheManifest exampleDocker exampleJson (New none) exampleImage).2
      exampleImage exampleImage exampleManifest
      [.request .blobGet examplePathVars .absent, .manifest exampleImage] rfl rfl).1⟩

/-- C9: on a cache miss, when extraction succeeds with `m`, `getAndCacheManifest(img)`
returns `m`, the blob index afterwards holds `img` under every layer digest of `img` and
under its own ID, the cache holds `m` under the image ID, and every (digest, image ID)
pair indexed before is still indexed; when extraction fails, the error is returned and
cache and index are left unchanged. -/
theorem C9_cache_miss_effects (d : Docker) (j : Json) (r : Registry) (img : InspectResponse)
    (hmiss : mapGet r.manifestCache img.ID = none) :
    (∀ m, getManifest d j r.saveCalls img = .ok m →
      (getAndCacheManifest d j r img).1 = .ok m ∧
      (∀ dg, dg ∈ img.Layers ∨ dg = img.ID →
        indexed (getAndCacheManifest d j r img).2.blobIndex dg img.ID = some img) ∧
      mapGet (getAndCacheManifest d j r img).2.manifestCache img.ID = some m ∧
      (∀ dg id im, indexed r.blobIndex dg id = some im →
        (indexed (getAndCacheManifest d j r img).2.blobIndex dg id).isSome = true)) ∧
    (∀ e, getManifest d j r.saveCalls img = .error e →
      (getAndCacheManifest d j r img).1 = .error e ∧
      (getAndCacheManifest d j r img).2.manifestCache = r.manifestCache ∧
      (getAndCacheManifest d j r img).2.blobIndex = r.blobIndex) := by
  constructor
  · intro m hm
    unfold getAndCacheManifest
    simp only [hmiss, hm]
    refine ⟨trivial, ?_, mapGet_mapSet_same _ _ _, ?_⟩
    · intro dg hdg
      rw [indexed_addImageToIndex]
      simp [hdg]
    · intro dg id im hidx
      rw [indexed_addImageToIndex]
      split
      · rfl
      · rw [hidx]
        rfl
  · intro e he
    unfold getAndCacheManifest
    simp only [hmiss, he]
    exact ⟨trivial, trivial, trivial⟩

theorem C9_cache_miss_effects_witness :
    mapGet (New none).manifestCache exampleImage.ID = none ∧
      (getAndCacheManifest exampleDocker exampleJson (New none) exampleImage).1
        = .ok exampleManifest ∧
      indexed (getAndCacheManifest exampleDocker exampleJson (New none)
        exampleImage).2.blobIndex "sha256:l2".toList exampleImage.ID = some exampleImage ∧
      indexed (getAndCacheManifest exampleDocker exampleJson (New none)
        exampleImage).2.blobIndex exampleImage.ID exampleImage.ID = some exampleImage ∧
      mapGet (getAndCacheManifest exampleDocker exampleJson (New none)
        exampleImage).2.manifestCache exampleImage.ID = some exampleManifest :=
  let h := (C9_cache_miss_effects exampleDocker exampleJson (New none) exampleImage rfl).1
    exampleManifest rfl
  ⟨rfl, h.1, h.2.1 "sha256:l2".toList (Or.inl (by decide)), h.2.1 exampleImage.ID (Or.inr rfl),
    h.2.2.1⟩

/-! ## Blob handler: an archive that cannot be read on -/

theorem end_2_stream_next_error (digest e : Str) (r : Registry) (entries : List TarEntry)
    (hnone : ∀ h ∈ entries, h.Name ≠ "blobs/".toList ++ ReplaceAll digest ':' '/') :
    (end_2_stream digest (some e) r entries).outcome = .panicked ∧
      (end_2_stream digest (some e) r entries).w = ResponseWriter.fresh := by
  induction entries with
  | nil => exact ⟨rfl, rfl⟩
  | cons h rest ih =>
    unfold end_2_stream
    rw [if_pos (hnone h (List.mem_cons_self _ _))]
    exact ih (fun h2 hh2 => hnone h2 (List.mem_cons_of_mem _ hh2))

theorem scanArchive_next_error (j : Json) (t : TarStream) (e : Str)
    (hfail : t.failure = some e) : ∃ e2, scanArchive j t = .error e2 := by
  unfold scanArchive
  cases scanEntries j t.entries { index := [], smallBlobs := [] } with
  | error e1 => exact ⟨e1, rfl⟩
  | ok st =>
    rw [hfail]
    exact ⟨_, rfl⟩

/-- C11 on the code: when the blob is resolved, the save request succeeds and the archive
breaks off with an error other than end-of-archive before an entry for the blob, `end_2`
writes no status and no body and does not return: it dereferences the missing header and
panics.  The archive pass of `getManifest` returns an error on the same archive. -/
theorem C11_end_2_next_error_panics (d : Docker) (j : Json)
    (order : List (Str × InspectResponse) → List (Str × InspectResponse))
    (r : Registry) (pathVars : List (Str × Str)) (imgID e : Str) (t : TarStream)
    (hallow : HasAllowedPrefix r (pathVar pathVars "name".toList) = true)
    (hresolve : end_2_resolve order r (pathVar pathVars "name".toList)
      (pathVar pathVars "digest".toList) = .ok imgID)
    (hsave : d.ImageSave r.saveCalls imgID = .ok t)
    (hfail : t.failure = some e)
    (hnone : ∀ h ∈ t.entries,
      h.Name ≠ "blobs/".toList ++ ReplaceAll (pathVar pathVars "digest".toList) ':' '/') :
    (end_2 d order r pathVars).outcome = .panicked ∧
      (end_2 d order r pathVars).outcome ≠ .returned (some e) ∧
      (end_2 d order r pathVars).w = ResponseWriter.fresh ∧
      (end_2 d order r pathVars).w.status ≠ some StatusInternalServerError ∧
      ∃ e2, scanArchive j t = .error e2 := by
  have hs := end_2_stream_next_error (pathVar pathVars "digest".toList) e
    { r with saveCalls := r.saveCalls + 1 } t.entries hnone
  have hend : end_2 d order r pathVars =
      end_2_stream (pathVar pathVars "digest".toList) (some e)
        { r with saveCalls := r.saveCalls + 1 } t.entries := by
    unfold end_2
    simp only [hallow, hresolve, hsave, hfail]
    rfl
  rw [hend, hs.1, hs.2]
  refine ⟨rfl, ?_, rfl, ?_, scanArchive_next_error j t e hfail⟩
  · intro h
    cases h
  · intro h
    cases h

theorem C11_end_2_next_error_panics_witness :
    end_2_resolve id exampleRegistry "docker.io/example/app".toList "sha256:l1".toList
        = .ok "sha256:c0".toList ∧
      (end_2 brokenDocker id exampleRegistry longPathVars).outcome = .panicked ∧
      (end_2 brokenDocker id exampleRegistry longPathVars).w = ResponseWriter.fresh :=
  let h := C11_end_2_next_error_panics brokenDocker exampleJson id exampleRegistry longPathVars
    "sha256:c0".toList "unexpected EOF".toList
    { entries := [{ Name := "oci-layout".toList, Size := 1, content := .ok [0] }]
      failure := some "unexpected EOF".toList }
    (by decide) rfl rfl rfl (by decide)
  ⟨rfl, h.1, h.2.2.1⟩

/-! ## Start-up: the prefix set handed to the registry -/

/-- C12 on the code: with `REGISTRY_PREFIXES=library/`, `mainInner` hands the registry
a nil prefix set (the set it builds, one prefix per character of the value, is a block
variable that shadows the one passed on), and the registry allows `example/app`; for
every value of `REGISTRY_PREFIXES` the prefix set passed on is nil, and every registry
`mainInner` serves allows every name. -/
theorem C12_mainInner_prefixes_nil :
    (mainInner_prefixes "library/".toList).inner
        = some ["l".toList, "i".toList, "b".toList, "r".toList, "a".toList, "y".toList,
            "/".toList] ∧
      (mainInner_prefixes "library/".toList).outer = none ∧
      (∃ reg, mainInner (.ok emptyDocker) id "library/".toList = .ok reg ∧
        reg.Prefixes = none ∧ HasAllowedPrefix reg "example/app".toList = true) ∧
      (∀ prefixesStr, (mainInner_prefixes prefixesStr).outer = none) ∧
      (∀ d prefixOrder prefixesStr reg name,
        mainInner (.ok d) prefixOrder prefixesStr = .ok reg →
          reg.Prefixes = none ∧ HasAllowedPrefix reg name = true) := by
  refine ⟨by decide, by decide, ⟨_, rfl, rfl, rfl⟩, ?_, ?_⟩
  · intro prefixesStr
    unfold mainInner_prefixes
    split <;> rfl
  · intro d prefixOrder prefixesStr reg name h
    have hout : (mainInner_prefixes prefixesStr).outer = none := by
      unfold mainInner_prefixes
      split <;> rfl
    unfold mainInner at h
    simp only [hout, BuildIndex, New] at h
    cases hb : (buildIndexForPrefix d [] []).1 with
    | none =>
      rw [hb] at h
      simp only [Except.ok.injEq] at h
      subst h
      exact ⟨rfl, rfl⟩
    | some e2 =>
      rw [hb] at h
      cases h

end OciRegDocker
